import Mathlib

/-!
Verification of the instruction-accessor layer of the bytecode interpreter
(`src/hotspot/src/share/vm/interpreter/bytecode.cpp`).

The accessors are shallowly embedded: a method is its raw instruction byte
list plus its constant pool and (optional) constant-pool cache; every read
operation from the source is a pure function of the method and a bytecode
index (bci).  Machine integers are modelled as `Nat` with explicit masks,
signed 32-bit reads as `Int` via `toInt32`.  Helpers that live in headers
outside the verified translation unit (byte readers, the opcode format
table, the constant pool's lookup operations) are modelled from the spec
where noted.
-/

namespace JBR

/-- Bytecode opcodes relevant to this translation unit.  `fast_aldc` and
`fast_aldc_w` are the quickened (rewritten) forms of `ldc`/`ldc_w`;
`nop` stands in for every opcode this development does not distinguish. -/
inductive Code where
  | nop
  | aload_0
  | ldc
  | ldc_w
  | ldc2_w
  | tableswitch
  | lookupswitch
  | getfield
  | putfield
  | invokevirtual
  | invokespecial
  | invokestatic
  | invokeinterface
  | invokedynamic
  | new
  | wide
  | breakpoint
  | fast_aldc
  | fast_aldc_w
  deriving DecidableEq

namespace Bytecodes

/-- `Bytecodes::cast` on the byte actually present in the stream, using the
standard JVM opcode numbering (quickened `fast_aldc` forms use the
implementation-private numbers above the Java range). -/
def cast (b : Nat) : Code :=
  if b = 42 then .aload_0
  else if b = 18 then .ldc
  else if b = 19 then .ldc_w
  else if b = 20 then .ldc2_w
  else if b = 170 then .tableswitch
  else if b = 171 then .lookupswitch
  else if b = 180 then .getfield
  else if b = 181 then .putfield
  else if b = 182 then .invokevirtual
  else if b = 183 then .invokespecial
  else if b = 184 then .invokestatic
  else if b = 185 then .invokeinterface
  else if b = 186 then .invokedynamic
  else if b = 187 then .new
  else if b = 196 then .wide
  else if b = 202 then .breakpoint
  else if b = 229 then .fast_aldc
  else if b = 230 then .fast_aldc_w
  else .nop

/-- Modelled from the spec: `java_code` maps a possibly-quickened opcode back
to its canonical (Java) form; only the quickened load-constant forms occur
in this development. -/
def java_code (c : Code) : Code :=
  match c with
  | .fast_aldc => .ldc
  | .fast_aldc_w => .ldc_w
  | c => c

/-- Modelled from the spec: `can_rewrite(opcode)` marks the opcodes that are
rewrite-eligible per the format table (the ones quickening may touch). -/
def can_rewrite (c : Code) : Bool :=
  match c with
  | .aload_0 | .ldc | .ldc_w | .ldc2_w | .lookupswitch | .getfield
  | .putfield | .invokevirtual | .invokespecial | .invokestatic
  | .invokeinterface | .invokedynamic | .new => true
  | _ => false

end Bytecodes

/-- One constant-pool-cache entry; only the field this translation unit
reads (`constant_pool_index`, the originating pool slot recorded at
allocation time) is modelled. -/
structure CPCacheEntry where
  constant_pool_index : Nat
  deriving DecidableEq

/-- The constant-pool cache: a side table of entries indexed by cache slot. -/
structure CPCache where
  entries : List CPCacheEntry
  deriving DecidableEq

/-- `cache()->entry_at(i)`; an out-of-range slot is a precondition
violation, modelled as `none`. -/
def CPCache.entry_at (c : CPCache) (i : Nat) : Option CPCacheEntry :=
  c.entries.get? i

/-- The constant pool as this translation unit consumes it: per slot a
resolvable constant value (for load-constant) and a (name, signature)
symbol pair (for member references).  Symbols and values are modelled as
numeric identifiers. -/
structure ConstantPool where
  values : List Nat
  refs : List (Nat × Nat)
  deriving DecidableEq

/-- Modelled from the spec: `resolve_constant_at(index) -> value`, the
constant pool's direct resolution of the entry at a pool slot. -/
def ConstantPool.resolve_constant_at (cp : ConstantPool) (i : Nat) : Option Nat :=
  cp.values.get? i

/-- A method as the accessors see it: its instruction bytes, the absolute
address the bytes start at (alignment of jump tables depends on it), its
constant pool and its optional constant-pool cache (absent until the
rewrite pass attaches one). -/
structure Method where
  codeBase : Nat
  code : List Nat
  pool : ConstantPool
  cache : Option CPCache
  deriving DecidableEq

namespace Bytecode

/-- `byte_at(offset)`: the raw byte of the instruction stream at
`bci + offset`. -/
def byte_at (m : Method) (bci off : Nat) : Nat :=
  m.code.getD (bci + off) 0

/-- The opcode actually present at the accessor's position,
`Bytecodes::cast(byte_at(0))`. -/
def code (m : Method) (bci : Nat) : Code :=
  Bytecodes.cast (byte_at m bci 0)

/-- Modelled from the spec: `get_Java_u2_at`, a big-endian 2-byte read. -/
def get_Java_u2_at (m : Method) (bci off : Nat) : Nat :=
  byte_at m bci off * 256 + byte_at m bci (off + 1)

/-- Modelled from the spec: `get_Java_u4_at`, a big-endian 4-byte read. -/
def get_Java_u4_at (m : Method) (bci off : Nat) : Nat :=
  ((byte_at m bci off * 256 + byte_at m bci (off + 1)) * 256
      + byte_at m bci (off + 2)) * 256 + byte_at m bci (off + 3)

/-- Modelled from the spec: a native-byte-order 2-byte read; `he` records
whether the host is big-endian. -/
def get_native_u2_at (he : Bool) (m : Method) (bci off : Nat) : Nat :=
  if he then get_Java_u2_at m bci off
  else byte_at m bci off + byte_at m bci (off + 1) * 256

/-- Modelled from the spec: a native-byte-order 4-byte read. -/
def get_native_u4_at (he : Bool) (m : Method) (bci off : Nat) : Nat :=
  if he then get_Java_u4_at m bci off
  else
    byte_at m bci off + (byte_at m bci (off + 1)
      + (byte_at m bci (off + 2) + byte_at m bci (off + 3) * 256) * 256) * 256

/-- Reinterpret an unsigned 32-bit value as a signed `int`. -/
def toInt32 (n : Nat) : Int :=
  if n < 2 ^ 31 then (n : Int) else (n : Int) - 2 ^ 32

/-- Modelled from the spec: `aligned_offset(raw)` rounds the absolute
address `codeBase + bci + raw` up to the next 4-byte boundary and returns
it as an offset relative to the instruction start. -/
def aligned_offset (m : Method) (bci off : Nat) : Nat :=
  (((m.codeBase + bci + off) + 3) / 4) * 4 - (m.codeBase + bci)

/-- `check_must_rewrite`: among rewrite-eligible opcodes, the ones whose
rewrite is conditional or deferred answer `false`; everything else `true`.
Translated from the `switch` in `Bytecode::check_must_rewrite`. -/
def check_must_rewrite (c : Code) : Bool :=
  match c with
  | .aload_0 => false
  | .lookupswitch => false
  | .new => false
  | _ => true

end Bytecode

namespace Bytecode

/-- `constantPoolOopDesc::CPCACHE_INDEX_TAG`: `0x10000` in debug builds (it
keeps cache-slot indices distinct from pool indices), `0` — a no-op — in
product builds; `dbg` selects the build. -/
def cpcache_index_tag (dbg : Bool) : Nat :=
  if dbg then 65536 else 0

/-- Modelled from the spec: `has_index_u4` — only `invokedynamic` is
rewritten from a 2-byte pool index to a 4-byte native cache index. -/
def has_index_u4 (c : Code) : Bool :=
  c = Code.invokedynamic

/-- Modelled from the spec: `get_index_u1`, the raw 1-byte operand. -/
def get_index_u1 (m : Method) (bci : Nat) : Nat :=
  byte_at m bci 1

/-- Modelled from the spec: `get_index_u2` (non-wide), the big-endian
2-byte operand. -/
def get_index_u2 (m : Method) (bci : Nat) : Nat :=
  get_Java_u2_at m bci 1

/-- Modelled from the spec: `get_index_u2_cpcache`, the native-byte-order
2-byte cache-slot operand, tagged with `CPCACHE_INDEX_TAG`. -/
def get_index_u2_cpcache (he dbg : Bool) (m : Method) (bci : Nat) : Nat :=
  get_native_u2_at he m bci 1 + cpcache_index_tag dbg

/-- Modelled from the spec: `get_index_u4`, the native-byte-order 4-byte
cache-slot operand of a rewritten `invokedynamic`. -/
def get_index_u4 (he : Bool) (m : Method) (bci : Nat) : Nat :=
  get_native_u4_at he m bci 1

end Bytecode

namespace Bytecode_member_ref

/-- `Bytecode_member_ref::index()`: the 4-byte native operand when the
opcode's format carries one (rewritten `invokedynamic`), otherwise the
2-byte native cache-slot operand (tagged). -/
def index (he dbg : Bool) (m : Method) (bci : Nat) : Nat :=
  let rawc := Bytecode.code m bci
  if Bytecode.has_index_u4 rawc then Bytecode.get_index_u4 he m bci
  else Bytecode.get_index_u2_cpcache he dbg m bci

/-- `Bytecode_member_ref::pool_index()`: strips the debug-only tag from a
2-byte cache index, then resolves the cache slot through the attached
constant-pool cache to the originating pool slot.  A missing cache or an
out-of-range slot is a precondition violation, modelled as `none`. -/
def pool_index (he dbg : Bool) (m : Method) (bci : Nat) : Option Nat :=
  let idx := index he dbg m bci
  let idx := if dbg && !(Bytecode.has_index_u4 (Bytecode.code m bci)) then
    idx - Bytecode.cpcache_index_tag dbg else idx
  match m.cache with
  | none => none
  | some cache => (cache.entry_at idx).map (fun e => e.constant_pool_index)

end Bytecode_member_ref

namespace Bytecode_loadconstant

/-- Modelled from the spec: `has_cache_index()` — true exactly when the
load-constant opcode is a quickened form (the source test is
`code() >= number_of_java_codes`; the quickened forms are the only codes
above the Java range here). -/
def has_cache_index (m : Method) (bci : Nat) : Bool :=
  match Bytecode.code m bci with
  | .fast_aldc | .fast_aldc_w => true
  | _ => false

/-- `Bytecode_loadconstant::raw_index()`: a 1-byte operand for the narrow
`ldc` family, a big-endian 2-byte operand for the wide forms. -/
def raw_index (m : Method) (bci : Nat) : Nat :=
  let rawc := Bytecode.code m bci
  if Bytecodes.java_code rawc = Code.ldc then Bytecode.get_index_u1 m bci
  else Bytecode.get_index_u2 m bci

/-- `Bytecode_loadconstant::pool_index()`: resolves through the cache only
when the quickened encoding carries a cache index; otherwise the raw
operand already is the pool slot. -/
def pool_index (m : Method) (bci : Nat) : Option Nat :=
  let idx := raw_index m bci
  if has_cache_index m bci then
    match m.cache with
    | none => none
    | some cache => (cache.entry_at idx).map (fun e => e.constant_pool_index)
  else some idx

end Bytecode_loadconstant

/-- Modelled from the spec: `resolve_cached_constant_at(slot) -> value`,
the cache's resolution path: the entry recorded at the slot names the
originating pool slot, whose constant is resolved. -/
def Method.resolve_cached_constant_at (m : Method) (slot : Nat) : Option Nat :=
  match m.cache with
  | none => none
  | some cache =>
    (cache.entry_at slot).bind (fun e => m.pool.resolve_constant_at e.constant_pool_index)

/-- `Bytecode_loadconstant::resolve_constant()`: through the cache's
cached-constant path when the encoding carries a cache index, directly
through the constant pool otherwise. -/
def Bytecode_loadconstant.resolve_constant (m : Method) (bci : Nat) : Option Nat :=
  let idx := Bytecode_loadconstant.raw_index m bci
  if Bytecode_loadconstant.has_cache_index m bci then m.resolve_cached_constant_at idx
  else m.pool.resolve_constant_at idx

/-- The external link resolver's three strategies (spec §6); targets and
resolution errors are modelled as numeric identifiers. -/
structure LinkResolver where
  resolve_method : Nat → Except Nat Nat
  resolve_interface_method : Nat → Except Nat Nat
  resolve_dynamic_method : Nat → Except Nat Nat

/-- `Bytecode_invoke::static_target`: selects the resolution strategy by
the canonical opcode kind and returns the external resolver's result
unchanged (`Except` models the TRAPS error channel). -/
def Bytecode_invoke.static_target (he dbg : Bool) (r : LinkResolver)
    (m : Method) (bci : Nat) : Except Nat Nat :=
  let jc := Bytecodes.java_code (Bytecode.code m bci)
  if jc = Code.invokedynamic then
    r.resolve_dynamic_method (Bytecode_member_ref.index he dbg m bci)
  else if jc ≠ Code.invokeinterface then
    r.resolve_method (Bytecode_member_ref.index he dbg m bci)
  else
    r.resolve_interface_method (Bytecode_member_ref.index he dbg m bci)

/-- C2: for every rewrite-eligible opcode, `check_must_rewrite` answers
`false` exactly on `aload_0`, `lookupswitch` and `new`, and `true` on
every other rewrite-eligible opcode.  (The function is a pure `def`:
side-effect freedom is intrinsic to the embedding.) -/
theorem check_must_rewrite_exactly_three (c : Code)
    (hc : Bytecodes.can_rewrite c = true) :
    (Bytecode.check_must_rewrite c = false ↔
      (c = Code.aload_0 ∨ c = Code.lookupswitch ∨ c = Code.new)) := by
  cases c <;> simp_all [Bytecode.check_must_rewrite, Bytecodes.can_rewrite]

/-- Witness for C2 at two concrete rewrite-eligible opcodes. -/
theorem check_must_rewrite_exactly_three_witness :
    Bytecode.check_must_rewrite Code.new = false ∧
      Bytecode.check_must_rewrite Code.getfield ≠ false :=
  ⟨(check_must_rewrite_exactly_three Code.new (by decide)).mpr (by decide),
   fun h => by
     have := (check_must_rewrite_exactly_three Code.getfield (by decide)).mp h
     simp at this⟩

/-- A pre-rewrite `getfield` instruction: big-endian 2-byte pool index 42,
no cache attached yet. -/
def preGetfield : Method :=
  { codeBase := 0, code := [180, 0, 42],
    pool := { values := [], refs := [] }, cache := none }

/-- The same instruction after quickening on a little-endian host: the
operand now holds cache slot 7, whose entry records pool slot 42. -/
def postGetfield : Method :=
  { codeBase := 0, code := [180, 7, 0],
    pool := { values := [], refs := [] },
    cache := some { entries :=
      List.replicate 7 { constant_pool_index := 0 } ++
        [{ constant_pool_index := 42 }] } }

/-- An `invokedynamic` site after its u2-to-u4 rewrite: 4-byte native
cache-slot operand 7 (little-endian here), whose entry records pool
slot 42. -/
def postIndy : Method :=
  { codeBase := 0, code := [186, 7, 0, 0, 0],
    pool := { values := [], refs := [] },
    cache := some { entries :=
      List.replicate 7 { constant_pool_index := 0 } ++
        [{ constant_pool_index := 42 }] } }

/-- C1: for a member-reference instruction rewritten from a 2-byte pool
index to a cache-slot index — the 2-byte tagged native form of ordinary
invokes and field accesses, or the 4-byte native form of `invokedynamic`
— `pool_index()` on the post-rewrite encoding recovers exactly the pool
slot the pre-rewrite 2-byte operand denoted, because the cache entry
allocated by the rewriter records that slot; this holds for both the
product and the debug tagging discipline and for either host byte
order. -/
theorem member_ref_pool_index_rewrite_invariant (he dbg : Bool)
    (pre post : Method) (bci p s : Nat) (cache : CPCache) (e : CPCacheEntry)
    (hpre : Bytecode.get_Java_u2_at pre bci 1 = p)
    (hcache : post.cache = some cache)
    (hentry : cache.entry_at s = some e)
    (hcpi : e.constant_pool_index = p) :
    (Bytecode.has_index_u4 (Bytecode.code post bci) = false →
      Bytecode.get_native_u2_at he post bci 1 = s →
      Bytecode_member_ref.pool_index he dbg post bci =
        some (Bytecode.get_Java_u2_at pre bci 1)) ∧
    (Bytecode.has_index_u4 (Bytecode.code post bci) = true →
      Bytecode.get_index_u4 he post bci = s →
      Bytecode_member_ref.pool_index he dbg post bci =
        some (Bytecode.get_Java_u2_at pre bci 1)) := by
  constructor
  · intro hu hs
    cases dbg <;>
      simp [Bytecode_member_ref.pool_index, Bytecode_member_ref.index, hu,
        Bytecode.get_index_u2_cpcache, Bytecode.cpcache_index_tag, hcache, hs,
        hentry, hcpi, hpre]
  · intro hu hs
    cases dbg <;>
      simp [Bytecode_member_ref.pool_index, Bytecode_member_ref.index, hu,
        hcache, hs, hentry, hcpi, hpre]

/-- Witness for C1 on concrete pre/post pairs for both post-rewrite
encodings: a 2-byte rewritten `getfield` and a 4-byte rewritten
`invokedynamic`. -/
theorem member_ref_pool_index_rewrite_invariant_witness :
    (Bytecode_member_ref.pool_index false true postGetfield 0 =
      some (Bytecode.get_Java_u2_at preGetfield 0 1)) ∧
    (Bytecode_member_ref.pool_index false true postIndy 0 =
      some (Bytecode.get_Java_u2_at preGetfield 0 1)) :=
  ⟨(member_ref_pool_index_rewrite_invariant false true preGetfield postGetfield
      0 42 7 { entries := List.replicate 7 { constant_pool_index := 0 } ++
        [{ constant_pool_index := 42 }] } { constant_pool_index := 42 }
      (by decide) (by decide) (by decide) (by decide)).1 (by decide) (by decide),
   (member_ref_pool_index_rewrite_invariant false true preGetfield postIndy
      0 42 7 { entries := List.replicate 7 { constant_pool_index := 0 } ++
        [{ constant_pool_index := 42 }] } { constant_pool_index := 42 }
      (by decide) (by decide) (by decide) (by decide)).2 (by decide) (by decide)⟩

/-- C3: `resolve_constant()` takes the cache's cached-constant path exactly
when `has_cache_index()` holds and the direct pool path otherwise, and
whenever `pool_index()` is defined (the cache entry for the slot is
populated) the result coincides with the direct pool resolution of that
slot. -/
theorem loadconstant_resolve_constant_paths (m : Method) (bci : Nat) :
    (Bytecode_loadconstant.has_cache_index m bci = true →
      Bytecode_loadconstant.resolve_constant m bci =
        m.resolve_cached_constant_at (Bytecode_loadconstant.raw_index m bci)) ∧
    (Bytecode_loadconstant.has_cache_index m bci = false →
      Bytecode_loadconstant.resolve_constant m bci =
        m.pool.resolve_constant_at (Bytecode_loadconstant.raw_index m bci)) ∧
    (∀ p, Bytecode_loadconstant.pool_index m bci = some p →
      Bytecode_loadconstant.resolve_constant m bci =
        m.pool.resolve_constant_at p) := by
  refine ⟨?_, ?_, ?_⟩
  · intro h
    simp [Bytecode_loadconstant.resolve_constant, h]
  · intro h
    simp [Bytecode_loadconstant.resolve_constant, h]
  · intro p hp
    by_cases h : Bytecode_loadconstant.has_cache_index m bci
    · simp [Bytecode_loadconstant.pool_index, h] at hp
      cases hc : m.cache with
      | none => simp [hc] at hp
      | some cache =>
        simp [hc, Option.map_eq_some'] at hp
        obtain ⟨e, he1, he2⟩ := hp
        simp [Bytecode_loadconstant.resolve_constant, h,
          Method.resolve_cached_constant_at, hc, he1, he2]
    · simp [Bytecode_loadconstant.pool_index, h] at hp
      simp [Bytecode_loadconstant.resolve_constant, h, ← hp]

/-- A quickened narrow load-constant (`fast_aldc`) over cache slot 2 whose
entry records pool slot 5. -/
def cmFastAldc : Method :=
  { codeBase := 0, code := [229, 2],
    pool := { values := [10, 11, 12, 13, 14, 777], refs := [] },
    cache := some { entries := [{ constant_pool_index := 9 },
      { constant_pool_index := 9 }, { constant_pool_index := 5 }] } }

/-- Witness for C3: on the concrete quickened load-constant, the cached
path agrees with the direct pool resolution at the recovered slot. -/
theorem loadconstant_resolve_constant_paths_witness :
    Bytecode_loadconstant.resolve_constant cmFastAldc 0 =
      cmFastAldc.pool.resolve_constant_at 5 :=
  (loadconstant_resolve_constant_paths cmFastAldc 0).2.2 5 (by decide)

/-- C4: `static_target` selects exactly one of the three resolver
strategies by the canonical opcode kind — dynamic-call resolution for
`invokedynamic`, interface-method resolution for `invokeinterface`,
ordinary method resolution for every other invoke — and a resolution
error from the external resolver is returned unchanged. -/
theorem invoke_static_target_dispatch (he dbg : Bool) (r : LinkResolver)
    (m : Method) (bci : Nat) :
    (Bytecodes.java_code (Bytecode.code m bci) = Code.invokedynamic →
      Bytecode_invoke.static_target he dbg r m bci =
        r.resolve_dynamic_method (Bytecode_member_ref.index he dbg m bci)) ∧
    (Bytecodes.java_code (Bytecode.code m bci) = Code.invokeinterface →
      Bytecode_invoke.static_target he dbg r m bci =
        r.resolve_interface_method (Bytecode_member_ref.index he dbg m bci)) ∧
    (Bytecodes.java_code (Bytecode.code m bci) ≠ Code.invokedynamic →
      Bytecodes.java_code (Bytecode.code m bci) ≠ Code.invokeinterface →
      Bytecode_invoke.static_target he dbg r m bci =
        r.resolve_method (Bytecode_member_ref.index he dbg m bci)) ∧
    (∀ err, Bytecodes.java_code (Bytecode.code m bci) = Code.invokeinterface →
      r.resolve_interface_method (Bytecode_member_ref.index he dbg m bci) =
        Except.error err →
      Bytecode_invoke.static_target he dbg r m bci = Except.error err) := by
  refine ⟨?_, ?_, ?_, ?_⟩
  · intro h
    simp [Bytecode_invoke.static_target, h]
  · intro h
    simp [Bytecode_invoke.static_target, h]
  · intro h1 h2
    simp [Bytecode_invoke.static_target, h1, h2]
  · intro err h he2
    simp [Bytecode_invoke.static_target, h, he2]

/-- A concrete external resolver whose three strategies are
distinguishable by their results. -/
def rC4 : LinkResolver :=
  { resolve_method := fun n => Except.ok n,
    resolve_interface_method := fun n => Except.error (n + 100),
    resolve_dynamic_method := fun n => Except.ok (n * 2) }

/-- An `invokeinterface` call site over cache slot 3 (little-endian
post-rewrite operand). -/
def cmInvokeIf : Method :=
  { codeBase := 0, code := [185, 3, 0, 2, 0],
    pool := { values := [], refs := [] },
    cache := some { entries := [] } }

/-- Witness for C4: on the concrete `invokeinterface` site the
interface-resolution strategy is chosen. -/
theorem invoke_static_target_dispatch_witness :
    Bytecode_invoke.static_target false false rC4 cmInvokeIf 0 =
      rC4.resolve_interface_method
        (Bytecode_member_ref.index false false cmInvokeIf 0) :=
  (invoke_static_target_dispatch false false rC4 cmInvokeIf 0).2.1 (by decide)

/-- C10: a member-reference `pool_index()` always goes through the
constant-pool cache — with no cache attached it is undefined even for the
2-byte encoding — whereas a load-constant `pool_index()` with no cache
index returns the raw operand directly, never touching the cache. -/
theorem pool_index_cache_preconditions (he dbg : Bool) (m : Method)
    (bci : Nat) :
    (m.cache = none → Bytecode_member_ref.pool_index he dbg m bci = none) ∧
    (Bytecode_loadconstant.has_cache_index m bci = false →
      Bytecode_loadconstant.pool_index m bci =
        some (Bytecode_loadconstant.raw_index m bci)) := by
  constructor
  · intro h
    simp [Bytecode_member_ref.pool_index, h]
  · intro h
    simp [Bytecode_loadconstant.pool_index, h]

/-- Witness for C10 on the cache-less pre-rewrite method. -/
theorem pool_index_cache_preconditions_witness :
    Bytecode_member_ref.pool_index false false preGetfield 0 = none ∧
      Bytecode_loadconstant.pool_index preGetfield 0 =
        some (Bytecode_loadconstant.raw_index preGetfield 0) :=
  ⟨(pool_index_cache_preconditions false false preGetfield 0).1 (by decide),
   (pool_index_cache_preconditions false false preGetfield 0).2 (by decide)⟩

namespace Bytecode_tableswitch

/-- Modelled from the spec: `low_key()`, the signed 4-byte field at the
second aligned header word after the opcode byte. -/
def low_key (m : Method) (bci : Nat) : Int :=
  Bytecode.toInt32
    (Bytecode.get_Java_u4_at m bci (Bytecode.aligned_offset m bci (1 + 1 * 4)))

/-- Modelled from the spec: `high_key()`, the signed 4-byte field at the
third aligned header word after the opcode byte. -/
def high_key (m : Method) (bci : Nat) : Int :=
  Bytecode.toInt32
    (Bytecode.get_Java_u4_at m bci (Bytecode.aligned_offset m bci (1 + 2 * 4)))

/-- `Bytecode_tableswitch::dest_offset_at(i)`: the signed 4-byte big-endian
value at `aligned_offset(1 + (3 + i) * jintSize)`, past the three fixed
header words (default, low, high). -/
def dest_offset_at (m : Method) (bci i : Nat) : Int :=
  Bytecode.toInt32
    (Bytecode.get_Java_u4_at m bci
      (Bytecode.aligned_offset m bci (1 + (3 + i) * 4)))

/-- `Bytecode_tableswitch::verify()` (non-product): fatal (`false`) unless
the instruction is a tableswitch with `high_key >= low_key`; the body of
the source's counting loop checks nothing further. -/
def verify (m : Method) (bci : Nat) : Bool :=
  if Bytecodes.java_code (Bytecode.code m bci) = Code.tableswitch then
    decide (low_key m bci ≤ high_key m bci)
  else false

end Bytecode_tableswitch

namespace Bytecode_lookupswitch

/-- Modelled from the spec: `number_of_pairs()`, the 4-byte field at the
second aligned header word (non-negative for any verified table, so read
unsigned). -/
def number_of_pairs (m : Method) (bci : Nat) : Nat :=
  Bytecode.get_Java_u4_at m bci (Bytecode.aligned_offset m bci (1 + 1 * 4))

/-- Modelled from the spec: `pair_at(i)->match()`, the signed match key of
the i-th (match, offset) pair, laid out in two-word pairs after the two
header words. -/
def match_key (m : Method) (bci i : Nat) : Int :=
  Bytecode.toInt32
    (Bytecode.get_Java_u4_at m bci
      (Bytecode.aligned_offset m bci (1 + (2 + 2 * i) * 4)))

/-- The source's verification loop `int i = number_of_pairs() - 1;
while (i-- > 0) assert(pair_at(i)->match() < pair_at(i+1)->match())`,
run down from the given counter. -/
def verify_pairs (m : Method) (bci : Nat) : Nat → Bool
  | 0 => true
  | i + 1 => decide (match_key m bci i < match_key m bci (i + 1)) &&
      verify_pairs m bci i

/-- `Bytecode_lookupswitch::verify()` (non-product): fatal (`false`) unless
the instruction is a lookupswitch whose adjacent pairs are strictly
increasing by match key. -/
def verify (m : Method) (bci : Nat) : Bool :=
  if Bytecodes.java_code (Bytecode.code m bci) = Code.lookupswitch then
    verify_pairs m bci (number_of_pairs m bci - 1)
  else false

end Bytecode_lookupswitch

/-- The verification loop from the counter `k` checks exactly the adjacent
pairs below `k`. -/
lemma verify_pairs_iff (m : Method) (bci k : Nat) :
    Bytecode_lookupswitch.verify_pairs m bci k = true ↔
      ∀ i : Nat, i < k →
        Bytecode_lookupswitch.match_key m bci i <
          Bytecode_lookupswitch.match_key m bci (i + 1) := by
  induction k with
  | zero => simp [Bytecode_lookupswitch.verify_pairs]
  | succ k ih =>
    simp only [Bytecode_lookupswitch.verify_pairs, Bool.and_eq_true,
      decide_eq_true_eq, ih]
    constructor
    · rintro ⟨hk, hall⟩ i hi
      rcases Nat.lt_succ_iff_lt_or_eq.mp hi with h | h
      · exact hall i h
      · simpa [h] using hk
    · intro hall
      exact ⟨hall k (Nat.lt_succ_self k), fun i hi => hall i (hi.trans (Nat.lt_succ_self k))⟩

/-- C6: in non-production builds, switch validation succeeds exactly on
well-formed tables — lookupswitch `verify()` passes iff every adjacent
pair is strictly increasing by match key, and tableswitch `verify()`
passes iff `high_key >= low_key`. -/
theorem switch_verify_iff_wellformed (m : Method) (bci : Nat) :
    (Bytecodes.java_code (Bytecode.code m bci) = Code.lookupswitch →
      (Bytecode_lookupswitch.verify m bci = true ↔
        ∀ i : Nat, i + 1 < Bytecode_lookupswitch.number_of_pairs m bci →
          Bytecode_lookupswitch.match_key m bci i <
            Bytecode_lookupswitch.match_key m bci (i + 1))) ∧
    (Bytecodes.java_code (Bytecode.code m bci) = Code.tableswitch →
      (Bytecode_tableswitch.verify m bci = true ↔
        Bytecode_tableswitch.low_key m bci ≤ Bytecode_tableswitch.high_key m bci)) := by
  constructor
  · intro h
    rw [Bytecode_lookupswitch.verify, if_pos h, verify_pairs_iff]
    constructor
    · intro hall i hi
      exact hall i (by omega)
    · intro hall i hi
      exact hall i (by omega)
  · intro h
    rw [Bytecode_tableswitch.verify, if_pos h]
    simp

/-- C9: switch-accessor validation on the wrong instruction is
unconditionally fatal, regardless of table contents — lookupswitch
`verify()` fails on any non-lookupswitch bytecode and tableswitch
`verify()` fails on any non-tableswitch bytecode. -/
theorem switch_verify_wrong_opcode_fatal (m : Method) (bci : Nat) :
    (Bytecodes.java_code (Bytecode.code m bci) ≠ Code.lookupswitch →
      Bytecode_lookupswitch.verify m bci = false) ∧
    (Bytecodes.java_code (Bytecode.code m bci) ≠ Code.tableswitch →
      Bytecode_tableswitch.verify m bci = false) := by
  constructor
  · intro h
    rw [Bytecode_lookupswitch.verify, if_neg h]
  · intro h
    rw [Bytecode_tableswitch.verify, if_neg h]

/-- A concrete well-formed lookupswitch: two pairs (1, 100) and (5, 200),
default offset 50, instruction 4-byte aligned at base 0. -/
def cmLookup : Method :=
  { codeBase := 0,
    code := [171, 0, 0, 0, 0, 0, 0, 50, 0, 0, 0, 2,
             0, 0, 0, 1, 0, 0, 0, 100, 0, 0, 0, 5, 0, 0, 0, 200],
    pool := { values := [], refs := [] }, cache := none }

/-- A concrete well-formed tableswitch header: low 2, high 4. -/
def cmTable : Method :=
  { codeBase := 0,
    code := [170, 0, 0, 0, 0, 0, 0, 30, 0, 0, 0, 2, 0, 0, 0, 4],
    pool := { values := [], refs := [] }, cache := none }

/-- Witness for C6 on the two concrete switch instructions. -/
theorem switch_verify_iff_wellformed_witness :
    (Bytecode_lookupswitch.match_key cmLookup 0 0 <
      Bytecode_lookupswitch.match_key cmLookup 0 1) ∧
    Bytecode_tableswitch.verify cmTable 0 = true :=
  ⟨((switch_verify_iff_wellformed cmLookup 0).1 (by decide)).mp (by decide)
      0 (by decide),
   ((switch_verify_iff_wellformed cmTable 0).2 (by decide)).mpr (by decide)⟩

/-- Witness for C9: each verifier is fatal on the other switch's opcode. -/
theorem switch_verify_wrong_opcode_fatal_witness :
    Bytecode_lookupswitch.verify cmTable 0 = false ∧
      Bytecode_tableswitch.verify cmLookup 0 = false :=
  ⟨(switch_verify_wrong_opcode_fatal cmTable 0).1 (by decide),
   (switch_verify_wrong_opcode_fatal cmLookup 0).2 (by decide)⟩

/-- A list-level big-endian 4-byte read; `get_Java_u4_at` reduces to it. -/
def readU4 (l : List Nat) (k : Nat) : Nat :=
  ((l.getD k 0 * 256 + l.getD (k + 1) 0) * 256 + l.getD (k + 2) 0) * 256 +
    l.getD (k + 3) 0

lemma get_Java_u4_at_eq_readU4 (m : Method) (bci off : Nat) :
    Bytecode.get_Java_u4_at m bci off = readU4 m.code (bci + off) := by
  simp [Bytecode.get_Java_u4_at, Bytecode.byte_at, readU4, Nat.add_assoc]

/-- The four big-endian bytes of a 32-bit value. -/
def bytes4 (n : Nat) : List Nat :=
  [n / 16777216 % 256, n / 65536 % 256, n / 256 % 256, n % 256]

lemma readU4_append (l1 l2 : List Nat) (j : Nat) :
    readU4 (l1 ++ l2) (l1.length + j) = readU4 l2 j := by
  have h : ∀ c : Nat, (l1 ++ l2).getD (l1.length + j + c) 0 = l2.getD (j + c) 0 := by
    intro c
    rw [List.getD_append_right l1 l2 0 _ (by omega)]
    congr 1
    omega
  have h0 := h 0
  simp only [Nat.add_zero] at h0
  simp only [readU4, h0, h 1, h 2, h 3]

lemma readU4_shift (l1 l2 : List Nat) (k j : Nat) (hk : k = l1.length + j) :
    readU4 (l1 ++ l2) k = readU4 l2 j := by
  rw [hk, readU4_append]

lemma readU4_cons4 (a b c d : Nat) (rest : List Nat) :
    readU4 (a :: (b :: (c :: (d :: rest)))) 0 =
      ((a * 256 + b) * 256 + c) * 256 + d := rfl

lemma readU4_bytes4 (n : Nat) (rest : List Nat) (h : n < 4294967296) :
    readU4 (bytes4 n ++ rest) 0 = n := by
  have e : bytes4 n ++ rest =
      (n / 16777216 % 256) :: ((n / 65536 % 256) :: ((n / 256 % 256) ::
        ((n % 256) :: rest))) := rfl
  rw [e, readU4_cons4]
  omega

lemma length_join_bytes4 (offs : List Nat) :
    ((offs.map bytes4).flatten).length = 4 * offs.length := by
  induction offs with
  | nil => simp
  | cons x xs ih =>
    simp only [List.map_cons, List.flatten_cons, List.length_append, ih,
      List.length_cons, bytes4, List.length_nil]
    omega

lemma readU4_join_bytes4 (offs : List Nat) (i : Nat) (hi : i < offs.length)
    (hb : ∀ x ∈ offs, x < 4294967296) :
    readU4 ((offs.map bytes4).flatten) (4 * i) = offs.getD i 0 := by
  induction offs generalizing i with
  | nil => simp at hi
  | cons x xs ih =>
    have hjoin : ((x :: xs).map bytes4).flatten =
        bytes4 x ++ (xs.map bytes4).flatten := by simp
    cases i with
    | zero =>
      rw [hjoin]
      simpa using readU4_bytes4 x ((xs.map bytes4).flatten) (hb x (by simp))
    | succ i =>
      rw [hjoin, readU4_shift _ _ _ (4 * i) (by simp [bytes4]; omega)]
      rw [ih i (by simpa using hi) (fun y hy => hb y (by simp [hy]))]
      simp

/-- The serialized byte image of a tableswitch instruction: opcode byte,
`pad` alignment bytes, the three header words (default, low, high) and the
jump table. -/
def tableswitchBytes (pad d lo hi : Nat) (offs : List Nat) : List Nat :=
  (170 :: List.replicate pad 0) ++
    (bytes4 d ++ (bytes4 lo ++ (bytes4 hi ++ (offs.map bytes4).flatten)))

lemma aligned_offset_words (m : Method) (B pad : Nat) (hbase : m.codeBase = B)
    (hpad : pad + (B + 1) = (B + 4) / 4 * 4) (k : Nat) :
    Bytecode.aligned_offset m 0 (1 + k * 4) = 1 + pad + k * 4 := by
  simp only [Bytecode.aligned_offset, hbase, Nat.add_zero]
  omega

/-- C5: over a serialized tableswitch with low key L and high key H,
`dest_offset_at(i)` returns the 4-byte big-endian word at
`aligned_offset(1 + (3 + i) * 4)` — the i-th table offset past the three
fixed header words — for every `0 <= i <= H - L`, and the read stays
within the instruction's byte extent exactly for those `i`: reading
beyond `H - L` runs past the instruction (a precondition violation). -/
theorem tableswitch_dest_offset_table (m : Method) (B pad d lo4 hi4 : Nat)
    (offs : List Nat)
    (hbase : m.codeBase = B)
    (hcode : m.code = tableswitchBytes pad d lo4 hi4 offs)
    (hpad : pad + (B + 1) = (B + 4) / 4 * 4)
    (hlo : lo4 < 4294967296) (hhi : hi4 < 4294967296)
    (hoffs : ∀ x ∈ offs, x < 4294967296)
    (hlen : (offs.length : Int) =
      Bytecode_tableswitch.high_key m 0 - Bytecode_tableswitch.low_key m 0 + 1) :
    Bytecode_tableswitch.low_key m 0 = Bytecode.toInt32 lo4 ∧
    Bytecode_tableswitch.high_key m 0 = Bytecode.toInt32 hi4 ∧
    (∀ i : Nat, (i : Int) ≤ Bytecode_tableswitch.high_key m 0 -
        Bytecode_tableswitch.low_key m 0 →
      Bytecode_tableswitch.dest_offset_at m 0 i =
        Bytecode.toInt32 (offs.getD i 0)) ∧
    (∀ i : Nat,
      Bytecode.aligned_offset m 0 (1 + (3 + i) * 4) + 4 ≤ m.code.length ↔
        (i : Int) ≤ Bytecode_tableswitch.high_key m 0 -
          Bytecode_tableswitch.low_key m 0) := by
  have hal : ∀ k, Bytecode.aligned_offset m 0 (1 + k * 4) = 1 + pad + k * 4 :=
    aligned_offset_words m B pad hbase hpad
  have hread : ∀ k, readU4 m.code (1 + pad + k) =
      readU4 (bytes4 d ++ (bytes4 lo4 ++ (bytes4 hi4 ++
        (offs.map bytes4).flatten))) k := by
    intro k
    rw [hcode]
    simp only [tableswitchBytes]
    exact readU4_shift _ _ _ _ (by simp; omega)
  have hskip : ∀ (x : Nat) (rest : List Nat) (j : Nat),
      readU4 (bytes4 x ++ rest) (4 + j) = readU4 rest j := by
    intro x rest j
    exact readU4_shift _ _ _ _ (by simp [bytes4])
  have hskip0 : ∀ (x : Nat) (rest : List Nat),
      readU4 (bytes4 x ++ rest) 4 = readU4 rest 0 := by
    intro x rest
    exact readU4_shift _ _ _ _ (by simp [bytes4])
  have hlow : Bytecode_tableswitch.low_key m 0 = Bytecode.toInt32 lo4 := by
    simp only [Bytecode_tableswitch.low_key]
    rw [get_Java_u4_at_eq_readU4, hal 1,
      (by omega : (0 : Nat) + (1 + pad + 1 * 4) = 1 + pad + 4),
      hread 4, hskip0 d _, readU4_bytes4 lo4 _ hlo]
  have hhigh : Bytecode_tableswitch.high_key m 0 = Bytecode.toInt32 hi4 := by
    simp only [Bytecode_tableswitch.high_key]
    rw [get_Java_u4_at_eq_readU4, hal 2,
      (by omega : (0 : Nat) + (1 + pad + 2 * 4) = 1 + pad + (4 + 4)),
      hread (4 + 4), hskip d _ 4, hskip0 lo4 _, readU4_bytes4 hi4 _ hhi]
  have hlength : m.code.length = 1 + pad + (12 + 4 * offs.length) := by
    rw [hcode]
    simp only [tableswitchBytes, List.length_append, List.length_cons,
      List.length_replicate, length_join_bytes4, bytes4, List.length_nil]
    omega
  refine ⟨hlow, hhigh, ?_, ?_⟩
  · intro i hi
    have hilt : i < offs.length := by omega
    simp only [Bytecode_tableswitch.dest_offset_at]
    rw [get_Java_u4_at_eq_readU4, hal (3 + i),
      (by omega : (0 : Nat) + (1 + pad + (3 + i) * 4) =
        1 + pad + (4 + (4 + (4 + 4 * i)))),
      hread (4 + (4 + (4 + 4 * i))), hskip d _ _, hskip lo4 _ _, hskip hi4 _ _,
      readU4_join_bytes4 offs i hilt hoffs]
  · intro i
    rw [hal (3 + i), hlength]
    omega

/-- The spec's concrete tableswitch scenario: low 2, high 4, default -20,
offsets [10, 20, 30], serialized at base address 0 (3 padding bytes). -/
def cmTableFull : Method :=
  { codeBase := 0, code := tableswitchBytes 3 4294967276 2 4 [10, 20, 30],
    pool := { values := [], refs := [] }, cache := none }

/-- Witness for C5 on the concrete serialized tableswitch. -/
theorem tableswitch_dest_offset_table_witness :
    Bytecode_tableswitch.low_key cmTableFull 0 = Bytecode.toInt32 2 ∧
      Bytecode_tableswitch.dest_offset_at cmTableFull 0 1 =
        Bytecode.toInt32 (([10, 20, 30] : List Nat).getD 1 0) :=
  ⟨(tableswitch_dest_offset_table cmTableFull 0 3 4294967276 2 4 [10, 20, 30]
      rfl rfl (by decide) (by decide) (by decide) (by decide) (by decide)).1,
   (tableswitch_dest_offset_table cmTableFull 0 3 4294967276 2 4 [10, 20, 30]
      rfl rfl (by decide) (by decide) (by decide) (by decide)
      (by decide)).2.2.1 1 (by decide)⟩

/-- Modelled from the spec: the constant pool's `name_ref_at` — with a
cache attached, the instruction operand is first remapped through the
cache to the originating pool slot, stripping the debug-build tag when
the operand is of the tagged 2-byte kind (`tagged`; the source's pool
tells the operand kinds apart by their encoding — the 4-byte
`invokedynamic` operand is never tagged); without a cache, the operand
is used as a pool slot directly.  The result is the referenced member's
name symbol. -/
def Method.name_ref_at (dbg tagged : Bool) (m : Method) (which : Nat) :
    Option Nat :=
  match m.cache with
  | none => (m.pool.refs.get? which).map Prod.fst
  | some cache =>
    ((cache.entry_at
        (if tagged then which - Bytecode.cpcache_index_tag dbg else which)).bind
      (fun e => m.pool.refs.get? e.constant_pool_index)).map Prod.fst

/-- Modelled from the spec: `signature_ref_at`, as `name_ref_at` but for
the type-descriptor symbol. -/
def Method.signature_ref_at (dbg tagged : Bool) (m : Method) (which : Nat) :
    Option Nat :=
  match m.cache with
  | none => (m.pool.refs.get? which).map Prod.snd
  | some cache =>
    ((cache.entry_at
        (if tagged then which - Bytecode.cpcache_index_tag dbg else which)).bind
      (fun e => m.pool.refs.get? e.constant_pool_index)).map Prod.snd

/-- `Bytecode_member_ref::name()`: delegates to the constant pool at
`index()` (the 2-byte operand kind is the tagged one). -/
def Bytecode_member_ref.name (he dbg : Bool) (m : Method) (bci : Nat) :
    Option Nat :=
  m.name_ref_at dbg (!(Bytecode.has_index_u4 (Bytecode.code m bci)))
    (Bytecode_member_ref.index he dbg m bci)

/-- `Bytecode_member_ref::signature()`: delegates to the constant pool at
`index()` (the 2-byte operand kind is the tagged one). -/
def Bytecode_member_ref.signature (he dbg : Bool) (m : Method) (bci : Nat) :
    Option Nat :=
  m.signature_ref_at dbg (!(Bytecode.has_index_u4 (Bytecode.code m bci)))
    (Bytecode_member_ref.index he dbg m bci)

/-- C7: `name()` and `signature()` fetch the member's name and type
descriptor from the constant pool at the slot `pool_index()` recovers
(post-rewrite, through the cache, for both the 2-byte and the 4-byte
`invokedynamic` encoding), and pre-rewrite — no cache attached —
directly at `index()`. -/
theorem member_ref_name_signature_via_pool (he dbg : Bool) (m : Method)
    (bci : Nat) :
    (∀ p, Bytecode_member_ref.pool_index he dbg m bci = some p →
      Bytecode_member_ref.name he dbg m bci =
        (m.pool.refs.get? p).map Prod.fst ∧
      Bytecode_member_ref.signature he dbg m bci =
        (m.pool.refs.get? p).map Prod.snd) ∧
    (m.cache = none →
      Bytecode_member_ref.name he dbg m bci =
        (m.pool.refs.get? (Bytecode_member_ref.index he dbg m bci)).map
          Prod.fst ∧
      Bytecode_member_ref.signature he dbg m bci =
        (m.pool.refs.get? (Bytecode_member_ref.index he dbg m bci)).map
          Prod.snd) := by
  constructor
  · intro p hp
    cases hc : m.cache with
    | none => simp [Bytecode_member_ref.pool_index, hc] at hp
    | some cache =>
      cases hu : Bytecode.has_index_u4 (Bytecode.code m bci) with
      | false =>
        cases dbg with
        | false =>
          simp [Bytecode_member_ref.pool_index, hu, hc,
            Bytecode.cpcache_index_tag, Option.map_eq_some'] at hp
          obtain ⟨e, he1, he2⟩ := hp
          constructor <;>
            simp [Bytecode_member_ref.name, Bytecode_member_ref.signature,
              Method.name_ref_at, Method.signature_ref_at, hc, hu,
              Bytecode.cpcache_index_tag, he1, he2]
        | true =>
          simp [Bytecode_member_ref.pool_index, hu, hc,
            Bytecode.cpcache_index_tag, Option.map_eq_some'] at hp
          obtain ⟨e, he1, he2⟩ := hp
          constructor <;>
            simp [Bytecode_member_ref.name, Bytecode_member_ref.signature,
              Method.name_ref_at, Method.signature_ref_at, hc, hu,
              Bytecode.cpcache_index_tag, he1, he2]
      | true =>
        simp [Bytecode_member_ref.pool_index, hu, hc,
          Option.map_eq_some'] at hp
        obtain ⟨e, he1, he2⟩ := hp
        constructor <;>
          simp [Bytecode_member_ref.name, Bytecode_member_ref.signature,
            Method.name_ref_at, Method.signature_ref_at, hc, hu, he1, he2]
  · intro hc
    constructor <;>
      simp [Bytecode_member_ref.name, Bytecode_member_ref.signature,
        Method.name_ref_at, Method.signature_ref_at, hc]

/-- A rewritten `getfield` whose cache slot 7 maps to pool slot 42, where
the pool records the member's (name, signature) pair (55, 66). -/
def cmMemberName : Method :=
  { codeBase := 0, code := [180, 7, 0],
    pool := { values := [], refs := List.replicate 42 (0, 0) ++ [(55, 66)] },
    cache := some { entries := List.replicate 7 { constant_pool_index := 0 } ++
      [{ constant_pool_index := 42 }] } }

/-- An `invokedynamic` site over the same pool and cache as
`cmMemberName`: 4-byte native cache-slot operand 7. -/
def cmIndyName : Method :=
  { codeBase := 0, code := [186, 7, 0, 0, 0],
    pool := { values := [], refs := List.replicate 42 (0, 0) ++ [(55, 66)] },
    cache := some { entries := List.replicate 7 { constant_pool_index := 0 } ++
      [{ constant_pool_index := 42 }] } }

/-- Witness for C7 on concrete rewritten member references of both
encodings (debug tagging, little-endian). -/
theorem member_ref_name_signature_via_pool_witness :
    (Bytecode_member_ref.name false true cmMemberName 0 =
      (cmMemberName.pool.refs.get? 42).map Prod.fst) ∧
    (Bytecode_member_ref.name false true cmIndyName 0 =
      (cmIndyName.pool.refs.get? 42).map Prod.fst) :=
  ⟨((member_ref_name_signature_via_pool false true cmMemberName 0).1 42
      (by decide)).1,
   ((member_ref_name_signature_via_pool false true cmIndyName 0).1 42
      (by decide)).1⟩

namespace Bytecodes

/-- Modelled from the spec: the mask selecting every format-descriptor bit. -/
def all_fmt_bits : Nat := 255

/-- Modelled from the spec: per-opcode format flags — bit 1 `HAS_U1_IDX`,
2 `HAS_U2_IDX`, 4 `HAS_U4_IDX`, 8 `HAS_OFFSET_U2`, 16 `HAS_OFFSET_U4`,
32 `HAS_IMMEDIATE`, 64 `NOT_SIMPLE`, 128 `HAS_CACHE_IDX`; the wide
variant of an opcode additionally carries `NOT_SIMPLE`. -/
def flags (c : Code) (w : Bool) : Nat :=
  (match c with
   | .nop => 0
   | .aload_0 => 0
   | .ldc => 1
   | .ldc_w => 2
   | .ldc2_w => 2
   | .tableswitch => 64
   | .lookupswitch => 64
   | .getfield => 130
   | .putfield => 130
   | .invokevirtual => 130
   | .invokespecial => 130
   | .invokestatic => 130
   | .invokeinterface => 162
   | .invokedynamic => 132
   | .new => 2
   | .wide => 64
   | .breakpoint => 0
   | .fast_aldc => 129
   | .fast_aldc_w => 130) ||| (if w then 64 else 0)

end Bytecodes

/-- `Bytecode::assert_same_format_as` (debug builds), as a success
predicate: `false` means the debug assertion is fatal.  It decodes the
opcode actually at the accessor's position (peeling a wide prefix when
`is_wide`), and compares format flags against the expected opcode's;
finding a breakpoint opcode makes it return silently. -/
def Bytecode.assert_same_format_as (m : Method) (bci : Nat) (testbc : Code)
    (is_wide : Bool) : Bool :=
  let thisbc := Bytecode.code m bci
  if thisbc = Code.breakpoint then true
  else if is_wide then
    if thisbc ≠ Code.wide then false
    else
      let thisbc2 := Bytecodes.cast (Bytecode.byte_at m bci 1)
      if thisbc2 = Code.breakpoint then true
      else
        decide ((Bytecodes.flags testbc is_wide &&& Bytecodes.all_fmt_bits) =
          (Bytecodes.flags thisbc2 is_wide &&& Bytecodes.all_fmt_bits))
  else
    decide ((Bytecodes.flags testbc is_wide &&& Bytecodes.all_fmt_bits) =
      (Bytecodes.flags thisbc is_wide &&& Bytecodes.all_fmt_bits))

/-- An instruction stream whose first byte is the breakpoint opcode. -/
def cmBp : Method :=
  { codeBase := 0, code := [202, 0, 0],
    pool := { values := [], refs := [] }, cache := none }

/-- C8 counterexample: at a breakpoint byte the decoded opcode's format
flags differ from `getfield`'s, yet the check passes silently — so a
differing flag pair is not always fatal, refuting the claim as stated. -/
theorem assert_same_format_as_breakpoint_escape :
    (Bytecodes.flags Code.getfield false &&& Bytecodes.all_fmt_bits) ≠
      (Bytecodes.flags (Bytecode.code cmBp 0) false &&& Bytecodes.all_fmt_bits) ∧
    Bytecode.assert_same_format_as cmBp 0 Code.getfield false = true := by
  decide

/-- C8 (amended): `assert_same_format_as` decodes the opcode present at
the accessor's position (peeling the wide prefix when `is_wide`) and is
fatal whenever its format flags differ from the expected opcode's —
except when the decoded opcode is breakpoint, in which case the check
returns silently. -/
theorem assert_same_format_as_mismatch_fatal (m : Method) (bci : Nat)
    (testbc : Code) :
    (Bytecode.code m bci ≠ Code.breakpoint →
      (Bytecodes.flags testbc false &&& Bytecodes.all_fmt_bits) ≠
        (Bytecodes.flags (Bytecode.code m bci) false &&& Bytecodes.all_fmt_bits) →
      Bytecode.assert_same_format_as m bci testbc false = false) ∧
    (Bytecode.code m bci = Code.wide →
      Bytecodes.cast (Bytecode.byte_at m bci 1) ≠ Code.breakpoint →
      (Bytecodes.flags testbc true &&& Bytecodes.all_fmt_bits) ≠
        (Bytecodes.flags (Bytecodes.cast (Bytecode.byte_at m bci 1)) true &&&
          Bytecodes.all_fmt_bits) →
      Bytecode.assert_same_format_as m bci testbc true = false) := by
  constructor
  · intro h1 h2
    simp [Bytecode.assert_same_format_as, h1, h2]
  · intro h1 h2 h3
    have hwb : (Code.wide = Code.breakpoint) = False := by simp
    simp [Bytecode.assert_same_format_as, h1, h2, h3, hwb]

/-- Witness for the amended C8: asserting `ldc`'s format over a `getfield`
instruction is fatal. -/
theorem assert_same_format_as_mismatch_fatal_witness :
    Bytecode.assert_same_format_as postGetfield 0 Code.ldc false = false :=
  (assert_same_format_as_mismatch_fatal postGetfield 0 Code.ldc).1
    (by decide) (by decide)
